import Mathlib

/-!
Verification of the linker-script configuration generator
(`prettysize_config_generator.py`).

The program defines a textx (Arpeggio) PEG grammar `ld_grammar` for a
linker-script-like language and a function `process` that parses a document
and reduces it to a mapping from memory-region name to
`{size : bytes, sections : list of section names}`.

The shallow embedding below mirrors the source:
* the PEG parser semantics of textx/Arpeggio: whitespace (space, tab,
  newline, carriage return) is skipped before every terminal (string
  literal or regular-expression) match; alternatives are ordered choice
  with backtracking at the choice point; repetitions are greedy;
  `!'x'` is a negative lookahead that consumes nothing;
* match rules (`Hex`, `HexOrNum`, `Scale`, `Id`, built-in `ID`) produce the
  concatenation of their matched terminal texts;
* `process` walks the parsed stanza list in order, building a Python dict
  (embedded as an insertion-ordered association list): `Memory` stanzas
  insert/overwrite region entries, `Sections` stanzas append section names
  to the `sections` list of the stored region and, when present, of the
  used region.  A failed dict lookup is Python's `KeyError`; a failed
  `int(amount, 0)` is Python's `ValueError`; a failed parse is textx's
  syntax error.  The three failure modes are the constructors of `PErr`.

All repetition loops take an explicit fuel argument; the entry points pass
`input.length + 1`, which is enough because every grammar repetition body
consumes at least one character on the inputs the rules can succeed on.
-/

namespace Prettysize

/-- Parser input: the remaining characters of the document. -/
abbrev Input := List Char

/-- Arpeggio's default skippable whitespace characters. -/
def isWsChar (c : Char) : Bool :=
  c = ' ' || c = '\t' || c = '\n' || c = '\r'

/-- Skip leading whitespace, as Arpeggio does before every terminal match. -/
def skipWs : Input → Input
  | [] => []
  | c :: cs => if isWsChar c then skipWs cs else c :: cs

/-- Longest prefix of characters satisfying `p`, together with the rest. -/
def takeWhileCl (p : Char → Bool) : Input → Input × Input
  | [] => ([], [])
  | c :: cs =>
    if p c then
      let r := takeWhileCl p cs
      (c :: r.1, r.2)
    else ([], c :: cs)

/-- Match the literal characters `lit` at the head of the input
(no whitespace skipping; that is done by `matchLit`). -/
def matchChars : List Char → Input → Option Input
  | [], i => some i
  | _ :: _, [] => none
  | c :: cs, d :: ds => if d = c then matchChars cs ds else none

/-- An Arpeggio string match: skip whitespace, then match the literal. -/
def matchLit (lit : String) (i : Input) : Option Input :=
  matchChars lit.toList (skipWs i)

/-- Decimal digit test (regex `\d`, ASCII). -/
def isDigitChar (c : Char) : Bool := '0' ≤ c && c ≤ '9'

/-- ASCII letter test. -/
def isAlphaChar (c : Char) : Bool :=
  ('a' ≤ c && c ≤ 'z') || ('A' ≤ c && c ≤ 'Z')

/-- Regex `\w` (ASCII): letter, digit or underscore. -/
def isWordChar (c : Char) : Bool :=
  isAlphaChar c || isDigitChar c || c = '_'

/-- Hexadecimal digit test (regex `[a-fA-F\d]`). -/
def isHexChar (c : Char) : Bool :=
  isDigitChar c || ('a' ≤ c && c ≤ 'f') || ('A' ≤ c && c ≤ 'F')

/-- Character class of the custom `Id` rule: regex `[.\w\d_-]`. -/
def isIdChar (c : Char) : Bool :=
  c = '.' || isWordChar c || c = '-'

/-- Character class of the `Attribute` rule: regex `[RWXAILrwxail]`. -/
def isAttrChar (c : Char) : Bool :=
  c = 'R' || c = 'W' || c = 'X' || c = 'A' || c = 'I' || c = 'L' ||
  c = 'r' || c = 'w' || c = 'x' || c = 'a' || c = 'i' || c = 'l'

/-- A whitespace-skipping regex match of one-or-more characters of a class
(e.g. `/[a-fA-F\d]+/`).  Fails if no character matches. -/
def matchRun1 (p : Char → Bool) (i : Input) : Option (List Char × Input) :=
  let r := takeWhileCl p (skipWs i)
  match r.1 with
  | [] => none
  | l => some (l, r.2)

/-- Built-in textx `ID` rule: regex `[^\d\W]\w*`, i.e. a letter or
underscore followed by word characters. -/
def parseID (i : Input) : Option (String × Input) :=
  match skipWs i with
  | [] => none
  | c :: cs =>
    if isAlphaChar c || c = '_' then
      let r := takeWhileCl isWordChar cs
      some (String.mk (c :: r.1), r.2)
    else none

/-- Custom `Id` match rule: regex `[.\w\d_-]+` (section names keep their
leading dot). -/
def parseId (i : Input) : Option (String × Input) :=
  match matchRun1 isIdChar i with
  | some (l, rest) => some (String.mk l, rest)
  | none => none

/-- Body of a textx STRING after the opening quote `q`: consume characters
up to the unescaped closing quote (a backslash escapes the next
character, matching the `(\\q|[^q])*` regex). -/
def stringBody (q : Char) : Input → Option Input
  | [] => none
  | c :: cs =>
    if c = q then some cs
    else if c = '\\' then
      match cs with
      | [] => none
      | _ :: ds => stringBody q ds
    else stringBody q cs

/-- Built-in textx `STRING` rule (value discarded by the grammar). -/
def parseSTRING (i : Input) : Option Input :=
  match skipWs i with
  | '\"' :: cs => stringBody '\"' cs
  | '\'' :: cs => stringBody '\'' cs
  | _ => none

/-- `Hex: '0' ('x' | 'X') /[a-fA-F\d]+/;` — a match rule, producing the
concatenation of the matched terminal texts. -/
def parseHex (i : Input) : Option (String × Input) :=
  match matchLit ("0") i with
  | none => none
  | some i1 =>
    let x : Option (Char × Input) :=
      match matchLit ("x") i1 with
      | some i2 => some ('x', i2)
      | none =>
        match matchLit ("X") i1 with
        | some i2 => some ('X', i2)
        | none => none
    match x with
    | none => none
    | some (xc, i2) =>
      match matchRun1 isHexChar i2 with
      | none => none
      | some (ds, i3) => some (String.mk ('0' :: xc :: ds), i3)

/-- `HexOrNum: Hex | /\d+/;` — ordered choice of match rules. -/
def parseHexOrNum (i : Input) : Option (String × Input) :=
  match parseHex i with
  | some r => some r
  | none =>
    match matchRun1 isDigitChar i with
    | some (ds, rest) => some (String.mk ds, rest)
    | none => none

/-- `Scale: 'M' | 'K';` -/
def parseScale (i : Input) : Option (String × Input) :=
  match matchLit ("M") i with
  | some i1 => some ("M", i1)
  | none =>
    match matchLit ("K") i with
    | some i1 => some ("K", i1)
    | none => none

/-- `Size: amount=HexOrNum (scale=Scale)?;` — `scale` is `none` when the
optional suffix is absent (textx leaves the attribute unset). -/
structure SizeSpec where
  amount : String
  scale : Option String
  deriving DecidableEq, Repr

/-- Parse the `Size` rule. -/
def parseSize (i : Input) : Option (SizeSpec × Input) :=
  match parseHexOrNum i with
  | none => none
  | some (amt, i1) =>
    match parseScale i1 with
    | some (sc, i2) => some (⟨amt, some sc⟩, i2)
    | none => some (⟨amt, none⟩, i1)

/-- One `Attribute`: `'!' Attribute | /[RWXAILrwxail]/` — zero or more
(whitespace-separated) bangs followed by one attribute character; the
match-rule value is the concatenation without the whitespace. -/
def parseAttrAux (acc : List Char) : Input → Option (String × Input)
  | [] => none
  | c :: cs =>
    if isWsChar c then parseAttrAux acc cs
    else if c = '!' then parseAttrAux (acc ++ ['!']) cs
    else if isAttrChar c then some (String.mk (acc ++ [c]), cs)
    else none

/-- Greedy `Attribute` repetition (for `attributes+=Attribute`). -/
def attrsLoop : Nat → Input → List String × Input
  | 0, i => ([], i)
  | f + 1, i =>
    match parseAttrAux [] i with
    | none => ([], i)
    | some (a, i1) =>
      let r := attrsLoop f i1
      (a :: r.1, r.2)

/-- `Attributes: '(' attributes+=Attribute ')';` -/
def parseAttributes (i : Input) : Option (List String × Input) :=
  match matchLit ("(") i with
  | none => none
  | some i1 =>
    let r := attrsLoop (i1.length + 1) i1
    match r.1 with
    | [] => none
    | attrs =>
      match matchLit (")") r.2 with
      | none => none
      | some i2 => some (attrs, i2)

/-- One region declaration of a `MEMORY` block:
`MemorySpec: name=ID attributes=Attributes? ':' 'ORIGIN' '=' origin=Hex ','?
'LENGTH' '=' length=Size;` -/
structure MemorySpec where
  name : String
  attributes : List String
  origin : String
  length : SizeSpec
  deriving DecidableEq, Repr

/-- Parse the `MemorySpec` rule. -/
def parseMemorySpec (i : Input) : Option (MemorySpec × Input) :=
  match parseID i with
  | none => none
  | some (nm, i1) =>
    let ar : List String × Input :=
      match parseAttributes i1 with
      | some (as_, i2) => (as_, i2)
      | none => ([], i1)
    match matchLit (":") ar.2 with
    | none => none
    | some i3 =>
      match matchLit ("ORIGIN") i3 with
      | none => none
      | some i4 =>
        match matchLit ("=") i4 with
        | none => none
        | some i5 =>
          match parseHex i5 with
          | none => none
          | some (org, i6) =>
            let i7 := match matchLit (",") i6 with
              | some j => j
              | none => i6
            match matchLit ("LENGTH") i7 with
            | none => none
            | some i8 =>
              match matchLit ("=") i8 with
              | none => none
              | some i9 =>
                match parseSize i9 with
                | none => none
                | some (sz, i10) => some (⟨nm, ar.1, org, sz⟩, i10)

/-- `Location: used=ID 'AT' '>' stored=ID | stored=ID;` — in the second
alternative `used` is left unset (Python `None`). -/
structure LocationSpec where
  used : Option String
  stored : String
  deriving DecidableEq, Repr

/-- Parse the `Location` rule (ordered choice, `used AT > stored` first). -/
def parseLocation (i : Input) : Option (LocationSpec × Input) :=
  let alt1 : Option (LocationSpec × Input) :=
    match parseID i with
    | none => none
    | some (u, i1) =>
      match matchLit ("AT") i1 with
      | none => none
      | some i2 =>
        match matchLit (">") i2 with
        | none => none
        | some i3 =>
          match parseID i3 with
          | none => none
          | some (s, i4) => some (⟨some u, s⟩, i4)
  match alt1 with
  | some r => some r
  | none =>
    match parseID i with
    | none => none
    | some (s, i1) => some (⟨none, s⟩, i1)

/-- A parsed `Section` alternative.  The `Section` rule has assignments, so
textx always instantiates the `Section` meta-class; for the `Provide` and
`Assignment` alternatives no assignment fires and `location` stays unset
(Python `None`), so `process` skips those entries. -/
inductive SectionNode where
  | provide : SectionNode
  | sec : String → Option LocationSpec → SectionNode
  | assignment : SectionNode
  deriving DecidableEq, Repr

/-- `Provide: 'PROVIDE' '(' /[^)]+/ ')' ';';` -/
def parseProvide (i : Input) : Option Input :=
  match matchLit ("PROVIDE") i with
  | none => none
  | some i1 =>
    match matchLit ("(") i1 with
    | none => none
    | some i2 =>
      match matchRun1 (fun c => !(c = ')')) i2 with
      | none => none
      | some (_, i3) =>
        match matchLit (")") i3 with
        | none => none
        | some i4 => matchLit (";") i4

/-- `Assignment: ID '=' /[^;]+/ ';';` (a match rule; its value is unused). -/
def parseAssignment (i : Input) : Option Input :=
  match parseID i with
  | none => none
  | some (_, i1) =>
    match matchLit ("=") i1 with
    | none => none
    | some i2 =>
      match matchRun1 (fun c => !(c = ';')) i2 with
      | none => none
      | some (_, i3) => matchLit (";") i3

/-- `Arithmetic: ID '-' ID;` -/
def parseArithmetic (i : Input) : Option Input :=
  match parseID i with
  | none => none
  | some (_, i1) =>
    match matchLit ("-") i1 with
    | none => none
    | some i2 =>
      match parseID i2 with
      | none => none
      | some (_, i3) => some i3

/-- textx built-in `INT`: regex `[-+]?[0-9]+`. -/
def parseINT (i : Input) : Option Input :=
  match skipWs i with
  | [] => none
  | c :: cs =>
    let body : Input := if c = '-' || c = '+' then cs else c :: cs
    match body with
    | [] => none
    | d :: ds =>
      if isDigitChar d then
        let r := takeWhileCl isDigitChar ds
        some r.2
      else none

/-- `Address: '(' Address ')' | Arithmetic | ID | Hex | INT;`
(value unused by `process`; fuel bounds the parenthesis nesting). -/
def parseAddressAux : Nat → Input → Option Input
  | 0, _ => none
  | f + 1, i =>
    match matchLit ("(") i with
    | some i1 =>
      match parseAddressAux f i1 with
      | none => none
      | some i2 => matchLit (")") i2
    | none =>
      match parseArithmetic i with
      | some r => some r
      | none =>
        match parseID i with
        | some (_, r) => some r
        | none =>
          match parseHex i with
          | some (_, r) => some r
          | none => parseINT i

/-- `Alignment: 'ALIGN' '(' alignment=HexOrNum ')';` (value unused). -/
def parseAlignment (i : Input) : Option Input :=
  match matchLit ("ALIGN") i with
  | none => none
  | some i1 =>
    match matchLit ("(") i1 with
    | none => none
    | some i2 =>
      match parseHexOrNum i2 with
      | none => none
      | some (_, i3) =>
        match matchLit (")") i3 with
        | none => none
        | some i4 => some i4

/-- `Definition: !'}' /[^};]*/ ';'?;` — the negative lookahead makes a
definition fail exactly when the next (whitespace-skipped) character is
`}`; otherwise the starred regex (which may be empty) and an optional
semicolon are consumed. -/
def parseDefinition (i : Input) : Option Input :=
  match matchLit ("\x7d") i with
  | some _ => none
  | none =>
    let r := takeWhileCl (fun c => !(c = '\x7d' || c = ';')) (skipWs i)
    match matchLit (";") r.2 with
    | some i1 => some i1
    | none => some r.2

/-- Greedy tail of the `Definition+` repetition. -/
def defsMany : Nat → Input → Input
  | 0, i => i
  | f + 1, i =>
    match parseDefinition i with
    | none => i
    | some i1 => defsMany f i1

/-- `Definition+`: at least one definition, then greedily more. -/
def parseDefs (i : Input) : Option Input :=
  match parseDefinition i with
  | none => none
  | some i1 => some (defsMany (i1.length + 1) i1)

/-- Parse one `Section` alternative:
`Section: Provide
        | name=Id (addr=Address)? ':' (alignment=Alignment)? '{' Definition+
          '}' ('>' location=Location)?
        | Assignment;` -/
def parseSectionNode (i : Input) : Option (SectionNode × Input) :=
  match parseProvide i with
  | some i1 => some (.provide, i1)
  | none =>
    let alt2 : Option (SectionNode × Input) :=
      match parseId i with
      | none => none
      | some (nm, i1) =>
        let i2 := match parseAddressAux (i1.length + 1) i1 with
          | some j => j
          | none => i1
        match matchLit (":") i2 with
        | none => none
        | some i3 =>
          let i4 := match parseAlignment i3 with
            | some j => j
            | none => i3
          match matchLit ("\x7b") i4 with
          | none => none
          | some i5 =>
            match parseDefs i5 with
            | none => none
            | some i6 =>
              match matchLit ("\x7d") i6 with
              | none => none
              | some i7 =>
                let loc : Option LocationSpec × Input :=
                  match matchLit (">") i7 with
                  | some j =>
                    match parseLocation j with
                    | some (l, j1) => (some l, j1)
                    | none => (none, i7)
                  | none => (none, i7)
                some (.sec nm loc.1, loc.2)
    match alt2 with
    | some r => some r
    | none =>
      match parseAssignment i with
      | some i1 => some (.assignment, i1)
      | none => none

/-- A parsed top-level stanza.  `Comment`, `Assignment`, `OutputFormat` and
`OutputArch` are match rules, so the abstract `Stanza` rule yields plain
strings for them; their Python class name is not `Memory` or `Sections`,
so `process` skips them, exactly like the `entry` objects. -/
inductive Stanza where
  | comment : Stanza
  | memory : List MemorySpec → Stanza
  | sections : List SectionNode → Stanza
  | entry : String → Stanza
  | assignment : Stanza
  | outputFormat : Stanza
  | outputArch : Stanza
  deriving DecidableEq, Repr

/-- Scan a `Comment` body up to the first `*/` (the regex
`\/\*(\*(?!\/)|[^*])*\*\/` matches exactly up to the first occurrence). -/
def commentEnd : Input → Option Input
  | [] => none
  | '*' :: '/' :: rest => some rest
  | _ :: rest => commentEnd rest

/-- `Comment: /\/\*(\*(?!\/)|[^*])*\*\//;` -/
def parseComment (i : Input) : Option Input :=
  match skipWs i with
  | '/' :: '*' :: rest => commentEnd rest
  | _ => none

/-- Greedy `MemorySpec+` repetition. -/
def memSpecsLoop : Nat → Input → List MemorySpec × Input
  | 0, i => ([], i)
  | f + 1, i =>
    match parseMemorySpec i with
    | none => ([], i)
    | some (sp, i1) =>
      let r := memSpecsLoop f i1
      (sp :: r.1, r.2)

/-- `Memory: 'MEMORY' '{' memory_spec+=MemorySpec '}';` -/
def parseMemory (i : Input) : Option (Stanza × Input) :=
  match matchLit ("MEMORY") i with
  | none => none
  | some i1 =>
    match matchLit ("\x7b") i1 with
    | none => none
    | some i2 =>
      let r := memSpecsLoop (i2.length + 1) i2
      match r.1 with
      | [] => none
      | specs =>
        match matchLit ("\x7d") r.2 with
        | none => none
        | some i3 => some (.memory specs, i3)

/-- Greedy `Section*` repetition. -/
def sectionsLoop : Nat → Input → List SectionNode × Input
  | 0, i => ([], i)
  | f + 1, i =>
    match parseSectionNode i with
    | none => ([], i)
    | some (s, i1) =>
      let r := sectionsLoop f i1
      (s :: r.1, r.2)

/-- `Sections: 'SECTIONS' '{' sections*=Section '}';` -/
def parseSections (i : Input) : Option (Stanza × Input) :=
  match matchLit ("SECTIONS") i with
  | none => none
  | some i1 =>
    match matchLit ("\x7b") i1 with
    | none => none
    | some i2 =>
      let r := sectionsLoop (i2.length + 1) i2
      match matchLit ("\x7d") r.2 with
      | none => none
      | some i3 => some (.sections r.1, i3)

/-- `Entry: 'ENTRY' '(' entry=ID ')';` -/
def parseEntry (i : Input) : Option (Stanza × Input) :=
  match matchLit ("ENTRY") i with
  | none => none
  | some i1 =>
    match matchLit ("(") i1 with
    | none => none
    | some i2 =>
      match parseID i2 with
      | none => none
      | some (e, i3) =>
        match matchLit (")") i3 with
        | none => none
        | some i4 => some (.entry e, i4)

/-- `StringList: STRING ',' StringList | STRING;` (PEG ordered choice;
the recursion consumes a string and a comma each round). -/
def stringListLoop : Nat → Input → Option Input
  | 0, _ => none
  | f + 1, i =>
    match parseSTRING i with
    | none => none
    | some i1 =>
      match matchLit (",") i1 with
      | none => some i1
      | some i2 =>
        match stringListLoop f i2 with
        | some i3 => some i3
        | none => some i1

/-- `OutputFormat: 'OUTPUT_FORMAT' '(' StringList ')';` -/
def parseOutputFormat (i : Input) : Option (Stanza × Input) :=
  match matchLit ("OUTPUT_FORMAT") i with
  | none => none
  | some i1 =>
    match matchLit ("(") i1 with
    | none => none
    | some i2 =>
      match stringListLoop (i2.length + 1) i2 with
      | none => none
      | some i3 =>
        match matchLit (")") i3 with
        | none => none
        | some i4 => some (.outputFormat, i4)

/-- `OutputArch: 'OUTPUT_ARCH' '(' ID ')';` -/
def parseOutputArch (i : Input) : Option (Stanza × Input) :=
  match matchLit ("OUTPUT_ARCH") i with
  | none => none
  | some i1 =>
    match matchLit ("(") i1 with
    | none => none
    | some i2 =>
      match parseID i2 with
      | none => none
      | some (_, i3) =>
        match matchLit (")") i3 with
        | none => none
        | some i4 => some (.outputArch, i4)

/-- `Stanza: Comment | Memory | Sections | Entry | Assignment |
OutputFormat | OutputArch;` — ordered choice in grammar order. -/
def parseStanza (i : Input) : Option (Stanza × Input) :=
  match parseComment i with
  | some i1 => some (.comment, i1)
  | none =>
    match parseMemory i with
    | some r => some r
    | none =>
      match parseSections i with
      | some r => some r
      | none =>
        match parseEntry i with
        | some r => some r
        | none =>
          match parseAssignment i with
          | some i1 => some (.assignment, i1)
          | none =>
            match parseOutputFormat i with
            | some r => some r
            | none => parseOutputArch i

/-- Greedy `Stanza*` repetition. -/
def stanzasLoop : Nat → Input → List Stanza × Input
  | 0, i => ([], i)
  | f + 1, i =>
    match parseStanza i with
    | none => ([], i)
    | some (s, i1) =>
      let r := stanzasLoop f i1
      (s :: r.1, r.2)

/-- `File: stanzas*=Stanza;` followed by the implicit end-of-file check
(textx requires the whole document to be consumed). -/
def parseFile (s : String) : Option (List Stanza) :=
  let i := s.toList
  let r := stanzasLoop (i.length + 1) i
  match skipWs r.2 with
  | [] => some r.1
  | _ :: _ => none

/-! ## The semantic reducer (`process`) -/

/-- Value of a decimal digit list (most significant first). -/
def decValue : List Char → Nat :=
  List.foldl (fun acc c => 10 * acc + (c.toNat - '0'.toNat)) 0

/-- Value of one hexadecimal digit. -/
def hexDigitValue (c : Char) : Nat :=
  if isDigitChar c then c.toNat - '0'.toNat
  else if 'a' ≤ c && c ≤ 'f' then c.toNat - 'a'.toNat + 10
  else c.toNat - 'A'.toNat + 10

/-- Value of a hexadecimal digit list (most significant first). -/
def hexValue : List Char → Nat :=
  List.foldl (fun acc c => 16 * acc + hexDigitValue c) 0

/-- CPython's `int(s, 0)` on the literal shapes the grammar can produce
(no sign, no underscores, no surrounding whitespace): a `0x`/`0X` prefix
selects base 16 (`0b`/`0o` likewise select 2 and 8), and a bare digit run
is decimal — but a digit run starting with `'0'` is only legal when every
digit is `'0'`; otherwise `int` raises `ValueError` (`none` here). -/
def intBase0 (s : String) : Option Nat :=
  match s.toList with
  | [] => none
  | ['0'] => some 0
  | '0' :: c :: rest =>
    if c = 'x' || c = 'X' then
      if rest ≠ [] && rest.all isHexChar then some (hexValue rest) else none
    else if c = 'b' || c = 'B' then
      if rest ≠ [] && rest.all (fun d => d = '0' || d = '1') then
        some (decValue rest)
      else none
    else if c = 'o' || c = 'O' then
      if rest ≠ [] && rest.all (fun d => '0' ≤ d && d ≤ '7') then
        some (List.foldl (fun acc d => 8 * acc + (d.toNat - '0'.toNat)) 0 rest)
      else none
    else if (c :: rest).all (fun d => d = '0') then some 0
    else none
  | l => if l ≠ [] && l.all isDigitChar then some (decValue l) else none

/-- `scale_to_multiplier` from the source: `'K' ↦ 1024`, `'M' ↦ 1024*1024`,
anything else (including an absent scale) `↦ 1`. -/
def scale_to_multiplier (scale : Option String) : Nat :=
  match scale with
  | some ("K") => 1024
  | some ("M") => 1024 * 1024
  | _ => 1

/-- One entry of the output mapping:
`{'size': ..., 'sections': [...]}`. -/
structure Region where
  size : Nat
  sections : List String
  deriving DecidableEq, Repr

/-- The `memory_spaces` Python dict: an insertion-ordered association
list from region name to `Region`. -/
abbrev Table := List (String × Region)

/-- Python dict assignment `t[k] = v`: overwrite in place if the key is
present (keeping its position), otherwise append at the end. -/
def dictSet : Table → String → Region → Table
  | [], k, v => [(k, v)]
  | p :: ps, k, v =>
    if p.1 = k then (k, v) :: ps else p :: dictSet ps k v

/-- Python dict lookup `t[k]` (without the `KeyError`). -/
def dictGet : Table → String → Option Region
  | [], _ => none
  | p :: ps, k => if p.1 = k then some p.2 else dictGet ps k

/-- The keys of the table, in insertion order. -/
def dictKeys (t : Table) : List String := t.map (fun p => p.1)

/-- The failure modes of `process`: a textx syntax error from parsing, a
`KeyError` from `memory_spaces[name]` with an unknown region name, and a
`ValueError` from `int(amount, 0)` on a bad literal. -/
inductive PErr where
  | syntaxError : PErr
  | keyError : String → PErr
  | valueError : String → PErr
  deriving DecidableEq, Repr

/-- Process one `MemorySpec`:
`memory_spaces[spec.name] = {'size': int(spec.length.amount, 0) *
scale_to_multiplier(spec.length.scale), 'sections': []}`. -/
def stepSpec (t : Table) (sp : MemorySpec) : Except PErr Table :=
  match intBase0 sp.length.amount with
  | none => .error (.valueError sp.length.amount)
  | some v =>
    .ok (dictSet t sp.name ⟨v * scale_to_multiplier sp.length.scale, []⟩)

/-- Fold `stepSpec` over the specs of one `Memory` stanza. -/
def stepSpecs (t : Table) : List MemorySpec → Except PErr Table
  | [] => .ok t
  | sp :: rest =>
    match stepSpec t sp with
    | .error e => .error e
    | .ok t1 => stepSpecs t1 rest

/-- Process one parsed `Section` entry: when it carries a location, append
the section name to the stored region's list and then, if a used region
is present, to the used region's list; a missing region raises `KeyError`. -/
def stepSection (t : Table) : SectionNode → Except PErr Table
  | .sec nm (some loc) =>
    match dictGet t loc.stored with
    | none => .error (.keyError loc.stored)
    | some r =>
      let t1 := dictSet t loc.stored ⟨r.size, r.sections ++ [nm]⟩
      match loc.used with
      | none => .ok t1
      | some u =>
        match dictGet t1 u with
        | none => .error (.keyError u)
        | some ru => .ok (dictSet t1 u ⟨ru.size, ru.sections ++ [nm]⟩)
  | _ => .ok t

/-- Fold `stepSection` over the sections of one `Sections` stanza. -/
def stepSecs (t : Table) : List SectionNode → Except PErr Table
  | [] => .ok t
  | s :: rest =>
    match stepSection t s with
    | .error e => .error e
    | .ok t1 => stepSecs t1 rest

/-- Process one stanza: only `Memory` and `Sections` have any effect. -/
def stepStanza (t : Table) : Stanza → Except PErr Table
  | .memory specs => stepSpecs t specs
  | .sections secs => stepSecs t secs
  | _ => .ok t

/-- Process the stanza list in document order. -/
def reduceStanzas (t : Table) : List Stanza → Except PErr Table
  | [] => .ok t
  | s :: rest =>
    match stepStanza t s with
    | .error e => .error e
    | .ok t1 => reduceStanzas t1 rest

/-- The reducer on a parsed document, starting from the empty dict. -/
def reduceDoc (m : List Stanza) : Except PErr Table :=
  reduceStanzas [] m

/-- `process` from the source: parse the document text, then reduce the
stanzas to the region table.  An unparseable document is a textx syntax
error; the other failure modes come from the reducer. -/
def process (doc : String) : Except PErr Table :=
  match parseFile doc with
  | none => .error .syntaxError
  | some m => reduceDoc m

/-! ## Derived notions used to state the properties -/

/-- The last region spec of a `MEMORY` stanza declaring the name `n`
(the one whose values win under the dict's last-write semantics). -/
def lastDeclOf (n : String) : List MemorySpec → Option MemorySpec
  | [] => none
  | sp :: rest =>
    match lastDeclOf n rest with
    | some sp' => some sp'
    | none => if sp.name = n then some sp else none

/-- The names one parsed section entry appends to region `n`'s list:
one occurrence for the stored region, then one for the used region. -/
def placedSec (n : String) : SectionNode → List String
  | .sec nm (some loc) =>
    (if loc.stored = n then [nm] else []) ++
      (if loc.used = some n then [nm] else [])
  | _ => []

/-- Names appended to region `n` by one `Sections` stanza, in order. -/
def placedSecs (n : String) (secs : List SectionNode) : List String :=
  (secs.map (placedSec n)).flatten

/-- Names appended to region `n` by one stanza. -/
def placedStanzaInto (n : String) : Stanza → List String
  | .sections secs => placedSecs n secs
  | _ => []

/-- Names appended to region `n` by a stanza list, in document order. -/
def placedInto (n : String) (m : List Stanza) : List String :=
  (m.map (placedStanzaInto n)).flatten

/-- The region names one parsed section entry looks up. -/
def placedRegionsSec : SectionNode → List String
  | .sec _ (some loc) =>
    loc.stored :: (match loc.used with | some u => [u] | none => [])
  | _ => []

/-- All region names referenced by the placements of a `Sections` stanza. -/
def placedRegionsSecs (secs : List SectionNode) : List String :=
  (secs.map placedRegionsSec).flatten

/-- All region names referenced by placements of one stanza. -/
def placedStanzaRegions : Stanza → List String
  | .sections secs => placedRegionsSecs secs
  | _ => []

/-- All region names referenced by placements of a document. -/
def placedRegions (m : List Stanza) : List String :=
  (m.map placedStanzaRegions).flatten

/-- Whether some `MEMORY` stanza of the list declares region `n`. -/
def declaresRegion (n : String) (m : List Stanza) : Bool :=
  m.any (fun s =>
    match s with
    | .memory specs => specs.any (fun sp => sp.name = n)
    | _ => false)

/-- Stanza kinds with no semantic effect on the region table. -/
def skippable : Stanza → Bool
  | .memory _ => false
  | .sections _ => false
  | _ => true

/-! ## Concrete documents

The linker-script braces are written `\x7b` / `\x7d` in the string
literals. -/

/-- The end-to-end document exactly as the spec writes it: empty section
bodies and placements `> FLASH` and `AT> FLASH > RAM`. -/
def docC1 : String :=
  "MEMORY \x7b FLASH (rx) : ORIGIN = 0x08000000, LENGTH = 512K  RAM (rwx): ORIGIN = 0x20000000, LENGTH = 128K \x7d SECTIONS \x7b .text : \x7b \x7d > FLASH  .data : \x7b \x7d AT> FLASH > RAM \x7d"

/-- The same scenario written in the syntax the grammar accepts:
non-empty section bodies and the `Location` rule's load-at form
`> RAM AT> FLASH` (used region first, stored region second). -/
def docC1a : String :=
  "MEMORY \x7b FLASH (rx) : ORIGIN = 0x08000000, LENGTH = 512K  RAM (rwx): ORIGIN = 0x20000000, LENGTH = 128K \x7d SECTIONS \x7b .text : \x7b *(.text) \x7d > FLASH  .data : \x7b *(.data) \x7d > RAM AT> FLASH \x7d"

/-- A `MEMORY` block whose `LENGTH` literal is a decimal run with a
leading zero: grammar-valid, but `int('012', 0)` raises `ValueError`. -/
def docC2bad : String :=
  "MEMORY \x7b A : ORIGIN = 0x0, LENGTH = 012 \x7d"

/-- The parsed model of `docC2bad`. -/
def docC2badModel : List Stanza :=
  [.memory [⟨"A", [], "0x0", ⟨"012", none⟩⟩]]

/-- `LENGTH = 0x10000`. -/
def docC2hex : String := "MEMORY \x7b A : ORIGIN = 0x0, LENGTH = 0x10000 \x7d"

/-- `LENGTH = 64K`. -/
def docC2k : String := "MEMORY \x7b A : ORIGIN = 0x0, LENGTH = 64K \x7d"

/-- `LENGTH = 2M`. -/
def docC2m : String := "MEMORY \x7b A : ORIGIN = 0x0, LENGTH = 2M \x7d"

/-- A load-at placement written the way the spec writes it:
`.data : { x; } AT> FLASH > RAM`. -/
def docC3 : String :=
  "MEMORY \x7b FLASH : ORIGIN = 0x0, LENGTH = 1K RAM : ORIGIN = 0x1, LENGTH = 1K \x7d SECTIONS \x7b .data : \x7b x; \x7d AT> FLASH > RAM \x7d"

/-- The load-at placement in the grammar's actual syntax:
`.data : { x; } > RAM AT> FLASH` (used = RAM, stored = FLASH). -/
def docC3a : String :=
  "MEMORY \x7b FLASH : ORIGIN = 0x0, LENGTH = 1K RAM : ORIGIN = 0x1, LENGTH = 1K \x7d SECTIONS \x7b .data : \x7b x; \x7d > RAM AT> FLASH \x7d"

/-- A placement referencing the undeclared region `RAM`. -/
def docC4 : String :=
  "MEMORY \x7b FLASH : ORIGIN = 0x0, LENGTH = 1K \x7d SECTIONS \x7b .data : \x7b x; \x7d > RAM \x7d"

/-- The parsed model of `docC4`. -/
def docC4model : List Stanza :=
  [.memory [⟨"FLASH", [], "0x0", ⟨"1", some "K"⟩⟩],
   .sections [.sec ".data" (some ⟨none, "RAM"⟩)]]

/-- Region `R` declared, populated, re-declared, then re-populated. -/
def docC5 : String :=
  "MEMORY \x7b R : ORIGIN = 0x0, LENGTH = 1K \x7d SECTIONS \x7b .a : \x7b x; \x7d > R \x7d MEMORY \x7b R : ORIGIN = 0x0, LENGTH = 2K \x7d SECTIONS \x7b .b : \x7b x; \x7d > R \x7d"

/-- A `MEMORY` block with the malformed literal `LENGTH = 64Q`. -/
def docC6 : String :=
  "MEMORY \x7b A : ORIGIN = 0x0, LENGTH = 64Q \x7d"

/-- A single simple placement `.data : { x; } > RAM`. -/
def docC7s : String :=
  "MEMORY \x7b RAM : ORIGIN = 0x0, LENGTH = 1K \x7d SECTIONS \x7b .data : \x7b x; \x7d > RAM \x7d"

/-- Two simple placements into `RAM`, `.data` before `.bss`. -/
def docC7 : String :=
  "MEMORY \x7b RAM : ORIGIN = 0x0, LENGTH = 1K \x7d SECTIONS \x7b .data : \x7b x; \x7d > RAM .bss : \x7b y; \x7d > RAM \x7d"

/-- A document containing every non-semantic stanza kind: a comment, an
entry point, an output format, an output arch, a top-level assignment and
a `PROVIDE` inside `SECTIONS`. -/
def docC8y : String :=
  "/* c */ ENTRY(main) OUTPUT_FORMAT(\"elf32-littlearm\") OUTPUT_ARCH(arm) sym = 0x100; MEMORY \x7b RAM : ORIGIN = 0x0, LENGTH = 1K \x7d SECTIONS \x7b PROVIDE(end = .); .data : \x7b x; \x7d > RAM \x7d"

/-- The same document with all the non-semantic stanzas removed. -/
def docC8n : String :=
  "MEMORY \x7b RAM : ORIGIN = 0x0, LENGTH = 1K \x7d SECTIONS \x7b .data : \x7b x; \x7d > RAM \x7d"

/-- `LENGTH = 0123`: grammar-valid, rejected by `int(x, 0)`. -/
def docC9 : String :=
  "MEMORY \x7b A : ORIGIN = 0x0, LENGTH = 0123 \x7d"

/-- `ORIGIN = 0123`: the `Hex` rule demands a `0x`/`0X` prefix, so this
document does not parse at all. -/
def docC9o : String :=
  "MEMORY \x7b A : ORIGIN = 0123, LENGTH = 1K \x7d"

/-- A document whose section `.text` has an empty body. -/
def docC10 : String :=
  "MEMORY \x7b RAM : ORIGIN = 0x0, LENGTH = 1K \x7d SECTIONS \x7b .text : \x7b \x7d > RAM \x7d"

/-! ## Dictionary lemmas -/

theorem dictGet_set_same (t : Table) (k : String) (v : Region) :
    dictGet (dictSet t k v) k = some v := by
  induction t with
  | nil => simp [dictSet, dictGet]
  | cons p ps ih =>
    by_cases h : p.1 = k
    · simp [dictSet, dictGet, h]
    · simp [dictSet, dictGet, h, ih]

theorem dictGet_set_ne (t : Table) (k k' : String) (v : Region)
    (h : k' ≠ k) : dictGet (dictSet t k v) k' = dictGet t k' := by
  induction t with
  | nil => simp [dictSet, dictGet, Ne.symm h]
  | cons p ps ih =>
    by_cases hp : p.1 = k
    · simp only [dictSet, hp, if_true, dictGet]
      simp only [if_neg (show ¬(k = k') from fun e => h e.symm)]
    · simp only [dictSet, hp, if_false]
      by_cases hp' : p.1 = k'
      · simp only [dictGet, hp', if_true]
      · simp only [dictGet, hp', if_false, ih]

theorem mem_dictKeys_of_get (t : Table) (k : String) (r : Region)
    (h : dictGet t k = some r) : k ∈ dictKeys t := by
  induction t with
  | nil => simp [dictGet] at h
  | cons p ps ih =>
    by_cases hp : p.1 = k
    · simp only [dictKeys, List.map_cons, List.mem_cons]
      exact Or.inl hp.symm
    · simp only [dictGet, hp, if_false] at h
      simp only [dictKeys, List.map_cons, List.mem_cons]
      exact Or.inr (ih h)

theorem dictKeys_set_mem (t : Table) (k : String) (v : Region)
    (h : k ∈ dictKeys t) : dictKeys (dictSet t k v) = dictKeys t := by
  induction t with
  | nil => simp [dictKeys] at h
  | cons p ps ih =>
    by_cases hp : p.1 = k
    · simp only [dictSet, hp, if_true, dictKeys, List.map_cons, hp]
    · have hmem : k ∈ dictKeys ps := by
        rcases (by
          simpa only [dictKeys, List.map_cons, List.mem_cons] using h :
            k = p.1 ∨ k ∈ dictKeys ps) with h1 | h1
        · exact absurd h1.symm hp
        · exact h1
      simp only [dictSet, hp, if_false, dictKeys, List.map_cons,
        List.cons.injEq, true_and]
      exact ih hmem

theorem mem_dictKeys_set (t : Table) (k a : String) (v : Region)
    (h : a ∈ dictKeys (dictSet t k v)) : a ∈ dictKeys t ∨ a = k := by
  induction t with
  | nil =>
    right
    simpa only [dictSet, dictKeys, List.map_cons, List.map_nil,
      List.mem_singleton] using h
  | cons p ps ih =>
    by_cases hp : p.1 = k
    · simp only [dictSet, hp, if_true, dictKeys, List.map_cons,
        List.mem_cons] at h
      rcases h with h | h
      · right; exact h
      · left
        simp only [dictKeys, List.map_cons, List.mem_cons]
        exact Or.inr h
    · simp only [dictSet, hp, if_false, dictKeys, List.map_cons,
        List.mem_cons] at h
      rcases h with h | h
      · left
        simp only [dictKeys, List.map_cons, List.mem_cons]
        exact Or.inl h
      · rcases ih h with h1 | h1
        · left
          simp only [dictKeys, List.map_cons, List.mem_cons]
          exact Or.inr h1
        · right; exact h1

/-! ## Reducer lemmas -/

theorem reduceStanzas_append (t : Table) (xs ys : List Stanza) :
    reduceStanzas t (xs ++ ys) =
      match reduceStanzas t xs with
      | .error e => .error e
      | .ok t1 => reduceStanzas t1 ys := by
  induction xs generalizing t with
  | nil => simp [reduceStanzas]
  | cons s rest ih =>
    simp only [List.cons_append, reduceStanzas]
    cases stepStanza t s with
    | error e => rfl
    | ok t1 => exact ih t1

theorem stepStanza_skippable (t : Table) (s : Stanza)
    (h : skippable s = true) : stepStanza t s = .ok t := by
  cases s <;> simp [skippable] at h <;> rfl

theorem lastDeclOf_none_forall (n : String) (specs : List MemorySpec)
    (h : lastDeclOf n specs = none) : ∀ sp ∈ specs, sp.name ≠ n := by
  induction specs with
  | nil => intro sp hsp; simp at hsp
  | cons sp0 rest ih =>
    intro sp hsp
    simp only [lastDeclOf] at h
    rcases hrest : lastDeclOf n rest with _ | sp'
    · rw [hrest] at h
      simp only [List.mem_cons] at hsp
      rcases hsp with hsp | hsp
      · subst hsp
        by_cases hn : sp.name = n
        · simp [hn] at h
        · exact hn
      · exact ih hrest sp hsp
    · rw [hrest] at h; simp at h

theorem stepSpecs_get_of_not_decl (n : String) (specs : List MemorySpec) :
    ∀ t t' : Table, (∀ sp ∈ specs, sp.name ≠ n) →
      stepSpecs t specs = .ok t' → dictGet t' n = dictGet t n := by
  induction specs with
  | nil =>
    intro t t' _ hok
    simp only [stepSpecs] at hok; cases hok; rfl
  | cons sp rest ih =>
    intro t t' h hok
    simp only [stepSpecs] at hok
    rcases hsp : stepSpec t sp with _ | t1
    · rw [hsp] at hok; cases hok
    · rw [hsp] at hok
      have hne : sp.name ≠ n := h sp (by simp)
      have h1 : dictGet t1 n = dictGet t n := by
        simp only [stepSpec] at hsp
        rcases hv : intBase0 sp.length.amount with _ | v
        · rw [hv] at hsp; cases hsp
        · rw [hv] at hsp
          cases hsp
          exact dictGet_set_ne _ _ _ _ (Ne.symm hne)
      rw [ih t1 t' (fun sp' hsp' => h sp' (by simp [hsp'])) hok, h1]

theorem stepSpecs_lastDecl (n : String) (specs : List MemorySpec) :
    ∀ (sp : MemorySpec) (t t' : Table),
      lastDeclOf n specs = some sp → stepSpecs t specs = .ok t' →
      ∃ v, intBase0 sp.length.amount = some v ∧
        dictGet t' n = some ⟨v * scale_to_multiplier sp.length.scale, []⟩ := by
  induction specs with
  | nil => intro sp t t' hlast _; simp [lastDeclOf] at hlast
  | cons sp0 rest ih =>
    intro sp t t' hlast hok
    simp only [stepSpecs] at hok
    rcases hsp : stepSpec t sp0 with _ | t1
    · rw [hsp] at hok; cases hok
    · rw [hsp] at hok
      simp only [lastDeclOf] at hlast
      rcases hrest : lastDeclOf n rest with _ | sp'
      · rw [hrest] at hlast
        by_cases hn : sp0.name = n
        · simp only [hn, if_true, Option.some.injEq] at hlast
          subst hlast
          have hpres : dictGet t' n = dictGet t1 n :=
            stepSpecs_get_of_not_decl n rest t1 t'
              (lastDeclOf_none_forall n rest hrest) hok
          simp only [stepSpec] at hsp
          rcases hv : intBase0 sp0.length.amount with _ | v
          · rw [hv] at hsp; cases hsp
          · rw [hv] at hsp
            cases hsp
            refine ⟨v, rfl, ?_⟩
            rw [hpres, ← hn]
            exact dictGet_set_same t sp0.name _
        · simp [hn] at hlast
      · rw [hrest] at hlast
        cases hlast
        exact ih sp t1 t' hrest hok

theorem stepSpecs_keys (specs : List MemorySpec) :
    ∀ t t' : Table, stepSpecs t specs = .ok t' →
      ∀ a ∈ dictKeys t', a ∈ dictKeys t ∨
        a ∈ specs.map (fun sp => sp.name) := by
  induction specs with
  | nil =>
    intro t t' hok
    simp only [stepSpecs] at hok; cases hok
    intro a ha; exact Or.inl ha
  | cons sp rest ih =>
    intro t t' hok
    simp only [stepSpecs] at hok
    rcases hsp : stepSpec t sp with _ | t1
    · rw [hsp] at hok; cases hok
    · rw [hsp] at hok
      intro a ha
      rcases ih t1 t' hok a ha with h1 | h1
      · simp only [stepSpec] at hsp
        rcases hv : intBase0 sp.length.amount with _ | v
        · rw [hv] at hsp; cases hsp
        · rw [hv] at hsp
          cases hsp
          rcases mem_dictKeys_set _ _ _ _ h1 with h2 | h2
          · exact Or.inl h2
          · right; simp [h2]
      · right; simp only [List.map_cons, List.mem_cons]; exact Or.inr h1

theorem stepSection_placed (n : String) (s : SectionNode) (t t' : Table)
    (r : Region) (hok : stepSection t s = .ok t')
    (h : dictGet t n = some r) :
    dictGet t' n = some ⟨r.size, r.sections ++ placedSec n s⟩ := by
  cases s with
  | provide =>
    simp only [stepSection] at hok; cases hok
    simpa [placedSec] using h
  | assignment =>
    simp only [stepSection] at hok; cases hok
    simpa [placedSec] using h
  | sec nm oloc =>
    rcases oloc with _ | ⟨u, st⟩
    · simp only [stepSection] at hok; cases hok
      simpa [placedSec] using h
    · rcases hst : dictGet t st with _ | r0
      · simp only [stepSection, hst] at hok
        cases hok
      · rcases u with _ | u
        · simp only [stepSection, hst] at hok
          cases hok
          by_cases hn : st = n
          · have hr : r0 = r := by
              rw [hn, h] at hst; exact (Option.some.inj hst).symm
            rw [hn, dictGet_set_same, hr]
            simp [placedSec, hn]
          · rw [dictGet_set_ne t st n _ (Ne.symm hn), h]
            simp [placedSec, hn]
        · rcases hu : dictGet (dictSet t st ⟨r0.size, r0.sections ++ [nm]⟩) u
            with _ | ru
          · simp only [stepSection, hst, hu] at hok
            cases hok
          · simp only [stepSection, hst, hu] at hok
            cases hok
            by_cases hn2 : u = n
            · rw [hn2, dictGet_set_same]
              by_cases hn1 : st = n
              · have hr : r0 = r := by
                  rw [hn1, h] at hst; exact (Option.some.inj hst).symm
                have hust : u = st := by rw [hn2, hn1]
                rw [hust, dictGet_set_same] at hu
                have hru : ru = ⟨r0.size, r0.sections ++ [nm]⟩ :=
                  Option.some.inj hu.symm
                rw [hru, hr]
                simp [placedSec, hn1, hn2]
              · rw [dictGet_set_ne t st u _ (by rw [hn2]; exact Ne.symm hn1),
                  hn2, h] at hu
                have hru : ru = r := Option.some.inj hu.symm
                rw [hru]
                simp [placedSec, hn1, hn2]
            · rw [dictGet_set_ne _ u n _ (Ne.symm hn2)]
              by_cases hn1 : st = n
              · have hr : r0 = r := by
                  rw [hn1, h] at hst; exact (Option.some.inj hst).symm
                rw [hn1, dictGet_set_same, hr]
                simp [placedSec, hn1, hn2]
              · rw [dictGet_set_ne t st n _ (Ne.symm hn1), h]
                simp [placedSec, hn1, hn2]

theorem stepSection_keys (s : SectionNode) (t t' : Table)
    (hok : stepSection t s = .ok t') : dictKeys t' = dictKeys t := by
  cases s with
  | provide => simp only [stepSection] at hok; cases hok; rfl
  | assignment => simp only [stepSection] at hok; cases hok; rfl
  | sec nm oloc =>
    rcases oloc with _ | ⟨u, st⟩
    · simp only [stepSection] at hok; cases hok; rfl
    · rcases hst : dictGet t st with _ | r0
      · simp only [stepSection, hst] at hok
        cases hok
      · have hstk : st ∈ dictKeys t := mem_dictKeys_of_get t st r0 hst
        rcases u with _ | u
        · simp only [stepSection, hst] at hok
          cases hok
          exact dictKeys_set_mem t st _ hstk
        · rcases hu : dictGet (dictSet t st ⟨r0.size, r0.sections ++ [nm]⟩) u
            with _ | ru
          · simp only [stepSection, hst, hu] at hok
            cases hok
          · simp only [stepSection, hst, hu] at hok
            cases hok
            have huk : u ∈ dictKeys (dictSet t st ⟨r0.size, r0.sections ++ [nm]⟩) :=
              mem_dictKeys_of_get _ u ru hu
            rw [dictKeys_set_mem _ u _ huk, dictKeys_set_mem t st _ hstk]

theorem stepSection_regions (s : SectionNode) (t t' : Table)
    (hok : stepSection t s = .ok t') :
    ∀ a ∈ placedRegionsSec s, a ∈ dictKeys t := by
  cases s with
  | provide => intro a ha; simp [placedRegionsSec] at ha
  | assignment => intro a ha; simp [placedRegionsSec] at ha
  | sec nm oloc =>
    rcases oloc with _ | ⟨u, st⟩
    · intro a ha; simp [placedRegionsSec] at ha
    · rcases hst : dictGet t st with _ | r0
      · simp only [stepSection, hst] at hok
        cases hok
      · have hstk : st ∈ dictKeys t := mem_dictKeys_of_get t st r0 hst
        rcases u with _ | u
        · intro a ha
          simp only [placedRegionsSec, List.mem_singleton] at ha
          rw [ha]; exact hstk
        · rcases hu : dictGet (dictSet t st ⟨r0.size, r0.sections ++ [nm]⟩) u
            with _ | ru
          · simp only [stepSection, hst, hu] at hok
            cases hok
          · have huk : u ∈ dictKeys (dictSet t st ⟨r0.size, r0.sections ++ [nm]⟩) :=
              mem_dictKeys_of_get _ u ru hu
            have huk' : u ∈ dictKeys t := by
              rwa [dictKeys_set_mem t st _ hstk] at huk
            intro a ha
            simp only [placedRegionsSec, List.mem_cons,
              List.mem_singleton] at ha
            rcases ha with ha | ha | ha
            · rw [ha]; exact hstk
            · rw [ha]; exact huk'
            · simp at ha

theorem stepSecs_append_get (n : String) (secs : List SectionNode) :
    ∀ (t t' : Table) (r : Region), stepSecs t secs = .ok t' →
      dictGet t n = some r →
      dictGet t' n = some ⟨r.size, r.sections ++ placedSecs n secs⟩ := by
  induction secs with
  | nil =>
    intro t t' r hok h
    simp only [stepSecs] at hok; cases hok
    simpa [placedSecs] using h
  | cons s rest ih =>
    intro t t' r hok h
    simp only [stepSecs] at hok
    rcases hs : stepSection t s with _ | t1
    · rw [hs] at hok; cases hok
    · rw [hs] at hok
      have h1 := stepSection_placed n s t t1 r hs h
      have h2 := ih t1 t' _ hok h1
      rw [h2]
      simp [placedSecs, List.append_assoc]

theorem stepSecs_keys (secs : List SectionNode) :
    ∀ t t' : Table, stepSecs t secs = .ok t' → dictKeys t' = dictKeys t := by
  induction secs with
  | nil => intro t t' hok; simp only [stepSecs] at hok; cases hok; rfl
  | cons s rest ih =>
    intro t t' hok
    simp only [stepSecs] at hok
    rcases hs : stepSection t s with _ | t1
    · rw [hs] at hok; cases hok
    · rw [hs] at hok
      rw [ih t1 t' hok, stepSection_keys s t t1 hs]

theorem stepSecs_regions (secs : List SectionNode) :
    ∀ t t' : Table, stepSecs t secs = .ok t' →
      ∀ a ∈ placedRegionsSecs secs, a ∈ dictKeys t := by
  induction secs with
  | nil => intro t t' _ a ha; simp [placedRegionsSecs] at ha
  | cons s rest ih =>
    intro t t' hok a ha
    simp only [stepSecs] at hok
    rcases hs : stepSection t s with _ | t1
    · rw [hs] at hok; cases hok
    · rw [hs] at hok
      simp only [placedRegionsSecs, List.map_cons, List.flatten_cons,
        List.mem_append] at ha
      rcases ha with ha | ha
      · exact stepSection_regions s t t1 hs a ha
      · have := ih t1 t' hok a (by simpa [placedRegionsSecs] using ha)
        rwa [stepSection_keys s t t1 hs] at this

theorem declaresRegion_cons (n : String) (s : Stanza) (m : List Stanza) :
    declaresRegion n (s :: m) =
      ((match s with
        | .memory specs => specs.any (fun sp => sp.name = n)
        | _ => false) || declaresRegion n m) := by
  simp [declaresRegion]

theorem reduceStanzas_nodecl (n : String) (m : List Stanza) :
    ∀ (t T : Table) (r : Region), reduceStanzas t m = .ok T →
      declaresRegion n m = false → dictGet t n = some r →
      dictGet T n = some ⟨r.size, r.sections ++ placedInto n m⟩ := by
  induction m with
  | nil =>
    intro t T r hok _ h
    simp only [reduceStanzas] at hok; cases hok
    simpa [placedInto] using h
  | cons s rest ih =>
    intro t T r hok hnd h
    have hnd2 : declaresRegion n rest = false := by
      rw [declaresRegion_cons] at hnd
      exact (Bool.or_eq_false_iff.mp hnd).2
    simp only [reduceStanzas] at hok
    rcases hs : stepStanza t s with _ | t1
    · rw [hs] at hok; cases hok
    · rw [hs] at hok
      cases s with
      | memory specs =>
        have hany : specs.any (fun sp => sp.name = n) = false := by
          rw [declaresRegion_cons] at hnd
          exact (Bool.or_eq_false_iff.mp hnd).1
        have hall : ∀ sp ∈ specs, sp.name ≠ n := by
          intro sp hsp he
          have := List.any_eq_false.mp hany sp hsp
          simp [he] at this
        have h1 : dictGet t1 n = some r := by
          rw [stepSpecs_get_of_not_decl n specs t t1 hall hs, h]
        have := ih t1 T r hok hnd2 h1
        rw [this]
        simp [placedInto, placedStanzaInto]
      | sections secs =>
        have h1 := stepSecs_append_get n secs t t1 r hs h
        have := ih t1 T _ hok hnd2 h1
        rw [this]
        simp [placedInto, placedStanzaInto, placedSecs, List.append_assoc]
      | comment =>
        simp only [stepStanza] at hs; cases hs
        have := ih t T r hok hnd2 h
        rw [this]; simp [placedInto, placedStanzaInto]
      | entry e =>
        simp only [stepStanza] at hs; cases hs
        have := ih t T r hok hnd2 h
        rw [this]; simp [placedInto, placedStanzaInto]
      | assignment =>
        simp only [stepStanza] at hs; cases hs
        have := ih t T r hok hnd2 h
        rw [this]; simp [placedInto, placedStanzaInto]
      | outputFormat =>
        simp only [stepStanza] at hs; cases hs
        have := ih t T r hok hnd2 h
        rw [this]; simp [placedInto, placedStanzaInto]
      | outputArch =>
        simp only [stepStanza] at hs; cases hs
        have := ih t T r hok hnd2 h
        rw [this]; simp [placedInto, placedStanzaInto]

theorem reduceStanzas_placed (m : List Stanza) :
    ∀ t T : Table, reduceStanzas t m = .ok T →
      ∀ a ∈ placedRegions m, a ∈ dictKeys t ∨ declaresRegion a m = true := by
  induction m with
  | nil => intro t T _ a ha; simp [placedRegions] at ha
  | cons s rest ih =>
    intro t T hok a ha
    simp only [reduceStanzas] at hok
    rcases hs : stepStanza t s with _ | t1
    · rw [hs] at hok; cases hok
    · rw [hs] at hok
      simp only [placedRegions, List.map_cons, List.flatten_cons,
        List.mem_append] at ha
      rcases ha with ha | ha
      · cases s with
        | sections secs =>
          simp only [stepStanza] at hs
          exact Or.inl (stepSecs_regions secs t t1 hs a
            (by simpa [placedStanzaRegions] using ha))
        | memory specs => simp [placedStanzaRegions] at ha
        | comment => simp [placedStanzaRegions] at ha
        | entry e => simp [placedStanzaRegions] at ha
        | assignment => simp [placedStanzaRegions] at ha
        | outputFormat => simp [placedStanzaRegions] at ha
        | outputArch => simp [placedStanzaRegions] at ha
      · rcases ih t1 T hok a (by simpa [placedRegions] using ha) with h1 | h1
        · cases s with
          | memory specs =>
            simp only [stepStanza] at hs
            rcases stepSpecs_keys specs t t1 hs a h1 with h2 | h2
            · exact Or.inl h2
            · right
              rw [declaresRegion_cons]
              simp only [Bool.or_eq_true_iff]
              left
              exact List.any_eq_true.mpr
                (by
                  rcases List.mem_map.mp h2 with ⟨sp, hsp, he⟩
                  exact ⟨sp, hsp, by simp [he]⟩)
          | sections secs =>
            simp only [stepStanza] at hs
            rw [stepSecs_keys secs t t1 hs] at h1
            exact Or.inl h1
          | comment =>
            simp only [stepStanza] at hs; cases hs; exact Or.inl h1
          | entry e =>
            simp only [stepStanza] at hs; cases hs; exact Or.inl h1
          | assignment =>
            simp only [stepStanza] at hs; cases hs; exact Or.inl h1
          | outputFormat =>
            simp only [stepStanza] at hs; cases hs; exact Or.inl h1
          | outputArch =>
            simp only [stepStanza] at hs; cases hs; exact Or.inl h1
        · right
          rw [declaresRegion_cons]
          simp [h1]

/-! ## Symbolic parser lemmas -/

/-- The first character of the list (if any) fails the class test. -/
def headNotP (p : Char → Bool) : Input → Prop
  | [] => True
  | c :: _ => p c = false

theorem skipWs_cons_not (c : Char) (l : Input) (h : isWsChar c = false) :
    skipWs (c :: l) = c :: l := by
  simp [skipWs, h]

theorem skipWs_ws_append (w l : Input) (h : ∀ c ∈ w, isWsChar c = true) :
    skipWs (w ++ l) = skipWs l := by
  induction w with
  | nil => rfl
  | cons c cs ih =>
    have hc : isWsChar c = true := h c (by simp)
    simp only [List.cons_append, skipWs, hc, if_true]
    exact ih (fun d hd => h d (by simp [hd]))

theorem takeWhileCl_all_append (p : Char → Bool) (xs ys : Input)
    (h : ∀ c ∈ xs, p c = true) (h2 : headNotP p ys) :
    takeWhileCl p (xs ++ ys) = (xs, ys) := by
  induction xs with
  | nil =>
    cases ys with
    | nil => rfl
    | cons c cs =>
      simp only [headNotP] at h2
      simp [takeWhileCl, h2]
  | cons c cs ih =>
    have hc : p c = true := h c (by simp)
    simp only [List.cons_append, takeWhileCl, hc, if_true, List.append_eq]
    rw [ih (fun d hd => h d (by simp [hd]))]

theorem ws_not_id (c : Char) (h : isWsChar c = true) : isIdChar c = false := by
  have : c = ' ' ∨ c = '\t' ∨ c = '\n' ∨ c = '\r' := by
    simpa [isWsChar, or_assoc] using h
  rcases this with h1 | h1 | h1 | h1 <;> subst h1 <;> decide

theorem digit_not_ws (c : Char) (h : isDigitChar c = true) :
    isWsChar c = false := by
  by_contra hw
  have hw' : isWsChar c = true := by
    cases hb : isWsChar c
    · exact absurd hb hw
    · rfl
  have : c = ' ' ∨ c = '\t' ∨ c = '\n' ∨ c = '\r' := by
    simpa [isWsChar, or_assoc] using hw'
  rcases this with h1 | h1 | h1 | h1 <;> subst h1 <;> simp [isDigitChar] at h

theorem matchChars_cons_ne (c d : Char) (cs ds : Input) (h : d ≠ c) :
    matchChars (c :: cs) (d :: ds) = none := by
  simp [matchChars, h]

/-- A digit run with a leading zero and some non-zero digit has the shape
`'0' :: c :: tl`. -/
theorem leading_zero_shape (ds : List Char)
    (hd : ds.head? = some '0') (hnz : ∃ c ∈ ds, c ≠ '0') :
    ∃ c tl, ds = '0' :: c :: tl := by
  rcases ds with _ | ⟨c0, tl⟩
  · simp at hd
  · have hc0 : c0 = '0' := by simpa using hd
    subst hc0
    rcases tl with _ | ⟨c, tl'⟩
    · rcases hnz with ⟨c, hc, hne⟩
      simp only [List.mem_singleton] at hc
      exact absurd hc hne
    · exact ⟨c, tl', rfl⟩

/-- CPython rejects a decimal literal with base auto-detection when it has
a leading zero and is not all zeros (`int('0123', 0)` raises
`ValueError`). -/
theorem intBase0_leading_zero (ds : List Char)
    (hall : ds.all isDigitChar = true) (hd : ds.head? = some '0')
    (hnz : ∃ c ∈ ds, c ≠ '0') :
    intBase0 (String.mk ds) = none := by
  obtain ⟨c, tl, rfl⟩ := leading_zero_shape ds hd hnz
  have hcd : isDigitChar c = true := by
    have := List.all_eq_true.mp hall
    simpa using this c (by simp)
  have hx : c ≠ 'x' := fun e => by subst e; simp [isDigitChar] at hcd
  have hX : c ≠ 'X' := fun e => by subst e; simp [isDigitChar] at hcd
  have hb : c ≠ 'b' := fun e => by subst e; simp [isDigitChar] at hcd
  have hB : c ≠ 'B' := fun e => by subst e; simp [isDigitChar] at hcd
  have ho : c ≠ 'o' := fun e => by subst e; simp [isDigitChar] at hcd
  have hO : c ≠ 'O' := fun e => by subst e; simp [isDigitChar] at hcd
  have hz : ((c :: tl).all (fun d => d = '0')) = false := by
    rcases hnz with ⟨d, hdm, hdne⟩
    rcases (by simpa using hdm :
        d = '0' ∨ d = c ∨ d ∈ tl) with h1 | h1 | h1
    · exact absurd h1 hdne
    · cases hb2 : (c :: tl).all (fun d => d = '0')
      · rfl
      · have := List.all_eq_true.mp hb2 c (by simp)
        rw [← h1] at this
        simp at this
        exact absurd this hdne
    · cases hb2 : (c :: tl).all (fun d => d = '0')
      · rfl
      · have := List.all_eq_true.mp hb2 d (by simp [h1])
        simp at this
        exact absurd this hdne
  show intBase0 ⟨'0' :: c :: tl⟩ = none
  simp [intBase0, hx, hX, hb, hB, ho, hO, hz]

/-- The `HexOrNum` rule accepts any bare digit run (in particular one with
a leading zero): when the run is followed by a non-digit, the rule
consumes exactly the run. -/
theorem parseHexOrNum_leading_zero_run (ds rest : Input)
    (hall : ds.all isDigitChar = true) (hd : ds.head? = some '0')
    (hnz : ∃ c ∈ ds, c ≠ '0') (hrest : headNotP isDigitChar rest) :
    parseHexOrNum (ds ++ rest) = some (String.mk ds, rest) := by
  obtain ⟨c, tl, rfl⟩ := leading_zero_shape ds hd hnz
  have hcd : isDigitChar c = true := by
    have := List.all_eq_true.mp hall
    simpa using this c (by simp)
  have htld : ∀ d ∈ tl, isDigitChar d = true := by
    intro d hd2
    have := List.all_eq_true.mp hall
    simpa using this d (by simp [hd2])
  have hcw : isWsChar c = false := digit_not_ws c hcd
  simp only [List.cons_append]
  have hskip0 : skipWs ('0' :: c :: (tl ++ rest)) = '0' :: c :: (tl ++ rest) :=
    skipWs_cons_not _ _ (by decide)
  have hskipc : skipWs (c :: (tl ++ rest)) = c :: (tl ++ rest) :=
    skipWs_cons_not _ _ hcw
  have hhex : parseHex ('0' :: c :: (tl ++ rest)) = none := by
    have h0 : matchLit ("0") ('0' :: c :: (tl ++ rest)) =
        some (c :: (tl ++ rest)) := by
      simp [matchLit, hskip0, matchChars]
    have hxne : c ≠ 'x' := fun e => by subst e; simp [isDigitChar] at hcd
    have hXne : c ≠ 'X' := fun e => by subst e; simp [isDigitChar] at hcd
    have hx : matchLit ("x") (c :: (tl ++ rest)) = none := by
      rw [matchLit, hskipc]
      exact matchChars_cons_ne _ _ _ _ hxne
    have hX : matchLit ("X") (c :: (tl ++ rest)) = none := by
      rw [matchLit, hskipc]
      exact matchChars_cons_ne _ _ _ _ hXne
    simp only [parseHex, h0, hx, hX]
  have htl : takeWhileCl isDigitChar (tl ++ rest) = (tl, rest) :=
    takeWhileCl_all_append isDigitChar tl rest htld hrest
  have h01 : takeWhileCl isDigitChar ('0' :: c :: (tl ++ rest)) =
      ('0' :: c :: tl, rest) := by
    have h0d : isDigitChar '0' = true := by decide
    simp [takeWhileCl, hcd, htl, h0d]
  have hrun : matchRun1 isDigitChar ('0' :: c :: (tl ++ rest)) =
      some ('0' :: c :: tl, rest) := by
    simp only [matchRun1, hskip0, h01]
  simp only [parseHexOrNum, hhex, hrun]

/-- Processing a document whose first stanza is a `MEMORY` block with an
unconvertible `LENGTH` literal fails with the `ValueError`. -/
theorem reduceDoc_bad_length (name origin : String) (attrs : List String)
    (scale : Option String) (more : List Stanza) (amt : String)
    (h : intBase0 amt = none) :
    reduceDoc (.memory [⟨name, attrs, origin, ⟨amt, scale⟩⟩] :: more) =
      .error (.valueError amt) := by
  simp [reduceDoc, reduceStanzas, stepStanza, stepSpecs, stepSpec, h]

theorem stepSecs_append (t : Table) (xs ys : List SectionNode) :
    stepSecs t (xs ++ ys) =
      match stepSecs t xs with
      | .error e => .error e
      | .ok t1 => stepSecs t1 ys := by
  induction xs generalizing t with
  | nil => simp [stepSecs]
  | cons s rest ih =>
    simp only [List.cons_append, stepSecs]
    cases stepSection t s with
    | error e => rfl
    | ok t1 => exact ih t1

/-- A section definition whose braces enclose only whitespace is rejected:
the negative lookahead `!'}'` makes the first `Definition` fail, so the
required `Definition+` fails, and neither the `Provide` nor the
`Assignment` alternative can apply to a dot-led section name. -/
theorem parseSectionNode_empty_body (nmTail w1 w2 w3 rest : Input)
    (hnm : ∀ c ∈ nmTail, isIdChar c = true)
    (hw1 : ∀ c ∈ w1, isWsChar c = true)
    (hw2 : ∀ c ∈ w2, isWsChar c = true)
    (hw3 : ∀ c ∈ w3, isWsChar c = true) :
    parseSectionNode
      ('.' :: (nmTail ++ (w1 ++ (':' ::
        (w2 ++ ('\x7b' :: (w3 ++ ('\x7d' :: rest)))))))) = none := by
  set rest4 : Input := w3 ++ ('\x7d' :: rest) with hrest4
  set rest3 : Input := w2 ++ ('\x7b' :: rest4) with hrest3
  set big1 : Input := w1 ++ (':' :: rest3) with hbig1
  set i0 : Input := '.' :: (nmTail ++ big1) with hi0
  have hskip_i0 : skipWs i0 = i0 := skipWs_cons_not _ _ (by decide)
  have hskipb : skipWs big1 = ':' :: rest3 := by
    rw [hbig1, skipWs_ws_append w1 _ hw1, skipWs_cons_not _ _ (by decide)]
  have hskipr3 : skipWs rest3 = '\x7b' :: rest4 := by
    rw [hrest3, skipWs_ws_append w2 _ hw2, skipWs_cons_not _ _ (by decide)]
  have hskipr4 : skipWs rest4 = '\x7d' :: rest := by
    rw [hrest4, skipWs_ws_append w3 _ hw3, skipWs_cons_not _ _ (by decide)]
  have e_provide : parseProvide i0 = none := by
    have h1 : matchLit ("PROVIDE") i0 = none := by
      rw [matchLit, hskip_i0, hi0]
      exact matchChars_cons_ne _ _ _ _ (by decide)
    simp only [parseProvide, h1]
  have e_id : parseId i0 = some (String.mk ('.' :: nmTail), big1) := by
    have hall : ∀ c ∈ '.' :: nmTail, isIdChar c = true := by
      intro c hc
      rcases List.mem_cons.mp hc with h1 | h1
      · subst h1; decide
      · exact hnm c h1
    have hnb : headNotP isIdChar big1 := by
      rw [hbig1]
      rcases w1 with _ | ⟨c, cs⟩
      · show isIdChar ':' = false
        decide
      · show isIdChar c = false
        exact ws_not_id c (hw1 c (by simp))
    have hsplit := takeWhileCl_all_append isIdChar ('.' :: nmTail) big1 hall hnb
    rw [List.cons_append] at hsplit
    have hrun : matchRun1 isIdChar i0 = some ('.' :: nmTail, big1) := by
      rw [matchRun1, hskip_i0, hi0, hsplit]
    simp only [parseId, hrun]
  have e_pid : parseID big1 = none := by
    have hcond : (isAlphaChar ':' || (':' = '_')) = false := by decide
    simp only [parseID, hskipb, hcond, Bool.false_eq_true, if_false]
  have e_addr : ∀ f : Nat, parseAddressAux (f + 1) big1 = none := by
    intro f
    have hlp : matchLit ("(") big1 = none := by
      rw [matchLit, hskipb]
      exact matchChars_cons_ne _ _ _ _ (by decide)
    have harith : parseArithmetic big1 = none := by
      simp only [parseArithmetic, e_pid]
    have hhx : parseHex big1 = none := by
      have h0 : matchLit ("0") big1 = none := by
        rw [matchLit, hskipb]
        exact matchChars_cons_ne _ _ _ _ (by decide)
      simp only [parseHex, h0]
    have hint : parseINT big1 = none := by
      have hcondm : ((':' = '-') || (':' = '+')) = false := by decide
      have hdig : isDigitChar ':' = false := by decide
      simp only [parseINT, hskipb, hcondm, Bool.false_eq_true, if_false,
        hdig]
    simp only [parseAddressAux, hlp, harith, e_pid, hhx, hint]
  have e_colon : matchLit (":") big1 = some rest3 := by
    rw [matchLit, hskipb]
    simp [matchChars]
  have e_align : parseAlignment rest3 = none := by
    have h1 : matchLit ("ALIGN") rest3 = none := by
      rw [matchLit, hskipr3]
      exact matchChars_cons_ne _ _ _ _ (by decide)
    simp only [parseAlignment, h1]
  have e_brace : matchLit ("\x7b") rest3 = some rest4 := by
    rw [matchLit, hskipr3]
    simp [matchChars]
  have e_defs : parseDefs rest4 = none := by
    have hbrace : matchLit ("\x7d") rest4 = some rest := by
      rw [matchLit, hskipr4]
      simp [matchChars]
    have hdef : parseDefinition rest4 = none := by
      simp only [parseDefinition, hbrace]
    simp only [parseDefs, hdef]
  have e_assign : parseAssignment i0 = none := by
    have hcond : (isAlphaChar '.' || ('.' = '_')) = false := by decide
    have hid0 : parseID i0 = none := by
      simp only [parseID, hskip_i0, hi0, hcond, Bool.false_eq_true, if_false]
    simp only [parseAssignment, hid0]
  simp only [parseSectionNode, e_provide, e_id, e_addr, e_colon, e_align,
    e_brace, e_defs, e_assign]

/-! ## The claims -/

set_option maxRecDepth 100000

/-- Claim C1, counterexample: the end-to-end document exactly as the spec
writes it does not parse at all (its section bodies are empty, which
`Definition+` forbids, and `AT> FLASH > RAM` is not the `Location` rule's
syntax), so `process` raises a syntax error instead of returning the
claimed mapping. -/
theorem c1_counterexample : process docC1 = .error .syntaxError := by rfl

/-- Claim C1, amended: for the equivalent document written in the syntax
the grammar accepts (non-empty section bodies, placements `> FLASH` and
`> RAM AT> FLASH`), `process` succeeds and returns FLASH with size 524288
listing `.text` then `.data`, and RAM with size 131072 listing `.data` —
the section names keep their leading dots. -/
theorem c1_amended :
    process docC1a =
      .ok [("FLASH", ⟨524288, [".text", ".data"]⟩),
           ("RAM", ⟨131072, [".data"]⟩)] := by rfl

/-- Claim C2, counterexample: the region spec `A : ORIGIN = 0x0,
LENGTH = 012` parses (the grammar's `\d+` accepts any digit run), yet
`process` produces no size for it: `int('012', 0)` raises `ValueError`,
so there is a parsing `MemorySpec` whose output size does not exist. -/
theorem c2_counterexample :
    parseFile docC2bad = some docC2badModel ∧
      process docC2bad = .error (.valueError ("012")) := by
  exact ⟨by rfl, by rfl⟩

/-- Claim C2, amended: for every MEMORY region spec whose amount literal
is accepted by Python's base auto-detection (value `v`), the region entry
gets size `v * multiplier(scale)` with `K = 1024`, `M = 1048576` and no
suffix `= 1`; in particular `LENGTH = 0x10000` yields 65536, `LENGTH =
64K` yields 65536 and `LENGTH = 2M` yields 2097152. -/
theorem c2_amended :
    (∀ (t : Table) (sp : MemorySpec) (v : Nat),
      intBase0 sp.length.amount = some v →
      stepSpec t sp =
        .ok (dictSet t sp.name ⟨v * scale_to_multiplier sp.length.scale, []⟩)) ∧
    scale_to_multiplier (some ("K")) = 1024 ∧
    scale_to_multiplier (some ("M")) = 1048576 ∧
    scale_to_multiplier none = 1 ∧
    process docC2hex = .ok [("A", ⟨65536, []⟩)] ∧
    process docC2k = .ok [("A", ⟨65536, []⟩)] ∧
    process docC2m = .ok [("A", ⟨2097152, []⟩)] := by
  refine ⟨?_, by rfl, by rfl, by rfl, by rfl, by rfl, by rfl⟩
  intro t sp v h
  simp only [stepSpec, h]

/-- Witness for the amended claim C2 at `LENGTH = 64K`. -/
theorem c2_amended_witness :
    intBase0 ("64") = some 64 ∧
      stepSpec [] ⟨"A", [], "0x0", ⟨"64", some "K"⟩⟩ =
        .ok [("A", ⟨65536, []⟩)] := by
  refine ⟨by rfl, ?_⟩
  exact c2_amended.1 [] ⟨"A", [], "0x0", ⟨"64", some "K"⟩⟩ 64 (by rfl)

/-- Claim C3, counterexample: a document whose placement is written
`.data : { x; } AT> FLASH > RAM` — the load-at form exactly as the spec
writes it — does not parse: the grammar's placement suffix is
`'>' Location` with `Location: used=ID 'AT' '>' stored=ID | stored=ID`. -/
theorem c3_counterexample : parseFile docC3 = none := by rfl

/-- Claim C3, amended: for every placement carrying both a used and a
stored region (concrete syntax `> RAM AT> FLASH`, giving used = RAM and
stored = FLASH), processing the section succeeds when both regions exist
and appends the section name to the stored region's list and to the used
region's list; concretely `.data : { x; } > RAM AT> FLASH` puts `.data`
in both FLASH.sections and RAM.sections. -/
theorem c3_amended :
    (∀ (t : Table) (nm used stored : String) (rs ru : Region),
      used ≠ stored → dictGet t stored = some rs → dictGet t used = some ru →
      ∃ t', stepSection t (.sec nm (some ⟨some used, stored⟩)) = .ok t' ∧
        dictGet t' stored = some ⟨rs.size, rs.sections ++ [nm]⟩ ∧
        dictGet t' used = some ⟨ru.size, ru.sections ++ [nm]⟩) ∧
    process docC3a =
      .ok [("FLASH", ⟨1024, [".data"]⟩), ("RAM", ⟨1024, [".data"]⟩)] := by
  refine ⟨?_, by rfl⟩
  intro t nm used stored rs ru hne hst hu
  have hu1 : dictGet (dictSet t stored ⟨rs.size, rs.sections ++ [nm]⟩) used =
      some ru := by
    rw [dictGet_set_ne t stored used _ hne, hu]
  refine ⟨dictSet (dictSet t stored ⟨rs.size, rs.sections ++ [nm]⟩) used
    ⟨ru.size, ru.sections ++ [nm]⟩, ?_, ?_, ?_⟩
  · simp only [stepSection, hst, hu1]
  · rw [dictGet_set_ne _ used stored _ (Ne.symm hne), dictGet_set_same]
  · rw [dictGet_set_same]

/-- Witness for the amended claim C3: both regions exist and `.data` is
appended to both. -/
theorem c3_amended_witness :
    ("RAM" : String) ≠ "FLASH" ∧
      (∃ t', stepSection [("FLASH", ⟨1024, []⟩), ("RAM", ⟨1024, []⟩)]
          (.sec ".data" (some ⟨some "RAM", "FLASH"⟩)) = .ok t' ∧
        dictGet t' ("FLASH") = some ⟨1024, [".data"]⟩ ∧
        dictGet t' ("RAM") = some ⟨1024, [".data"]⟩) := by
  refine ⟨by decide, ?_⟩
  exact c3_amended.1 [("FLASH", ⟨1024, []⟩), ("RAM", ⟨1024, []⟩)]
    ".data" "RAM" "FLASH" ⟨1024, []⟩ ⟨1024, []⟩ (by decide) (by rfl) (by rfl)

/-- Claim C4: a document with a placement referencing a region name that
no MEMORY stanza declares never reduces to a region table — the run
aborts at the failed dict lookup (Python's `KeyError`, the behaviour the
spec names `UnknownRegionError`) and no partial mapping is returned;
concretely, placing `.data` into the undeclared `RAM` yields the lookup
error naming `RAM`. -/
theorem c4_unknown_region :
    (∀ (m : List Stanza) (r : String), r ∈ placedRegions m →
      declaresRegion r m = false → ∀ T : Table, reduceDoc m ≠ .ok T) ∧
    process docC4 = .error (.keyError ("RAM")) := by
  refine ⟨?_, by rfl⟩
  intro m r hmem hdecl T hok
  rcases reduceStanzas_placed m [] T hok r hmem with h1 | h1
  · simp [dictKeys] at h1
  · rw [hdecl] at h1
    cases h1

/-- Witness for claim C4 on the parsed model of `docC4`. -/
theorem c4_unknown_region_witness :
    ("RAM" ∈ placedRegions docC4model) ∧
      declaresRegion ("RAM") docC4model = false ∧
      reduceDoc docC4model ≠ .ok [] := by
  exact ⟨by decide, by rfl,
    c4_unknown_region.1 docC4model "RAM" (by decide) (by rfl) []⟩

/-- Claim C5: when a MEMORY stanza re-declares region `n` (its last spec
for `n` being `sp`) and no later stanza declares `n` again, a successful
run leaves `n` with the capacity computed from `sp` and with a sections
list holding exactly the names placed into `n` *after* the re-declaration
— the earlier capacity is overwritten and the list is reset to empty. -/
theorem c5_redeclaration (pre post : List Stanza) (specs : List MemorySpec)
    (n : String) (sp : MemorySpec) (v : Nat) (T : Table)
    (hlast : lastDeclOf n specs = some sp)
    (hnd : declaresRegion n post = false)
    (hv : intBase0 sp.length.amount = some v)
    (hok : reduceDoc (pre ++ .memory specs :: post) = .ok T) :
    dictGet T n =
      some ⟨v * scale_to_multiplier sp.length.scale, placedInto n post⟩ := by
  rw [reduceDoc, reduceStanzas_append] at hok
  rcases hpre : reduceStanzas [] pre with e | t1
  · rw [hpre] at hok; cases hok
  · rw [hpre] at hok
    simp only at hok
    simp only [reduceStanzas, stepStanza] at hok
    rcases hm : stepSpecs t1 specs with e | t2
    · rw [hm] at hok; cases hok
    · rw [hm] at hok
      simp only at hok
      obtain ⟨v', hv', hget⟩ := stepSpecs_lastDecl n specs sp t1 t2 hlast hm
      have hvv : v' = v := Option.some.inj (hv' ▸ hv)
      subst hvv
      have := reduceStanzas_nodecl n post t2 T _ hok hnd hget
      simpa using this

/-- Witness for claim C5 on the parsed model of `docC5`: `R` is first
declared with 1K and populated with `.a`, then re-declared with 2K; the
final entry has size 2048 and sections `[.b]` only. -/
theorem c5_redeclaration_witness :
    reduceDoc
        ([.memory [⟨"R", [], "0x0", ⟨"1", some "K"⟩⟩],
          .sections [.sec ".a" (some ⟨none, "R"⟩)]] ++
         .memory [⟨"R", [], "0x0", ⟨"2", some "K"⟩⟩] ::
          [.sections [.sec ".b" (some ⟨none, "R"⟩)]]) =
      .ok [("R", ⟨2048, [".b"]⟩)] ∧
    dictGet [("R", ⟨2048, [".b"]⟩)] ("R") =
      some ⟨2 * scale_to_multiplier (some ("K")),
        placedInto ("R") [.sections [.sec ".b" (some ⟨none, "R"⟩)]]⟩ := by
  refine ⟨by rfl, ?_⟩
  exact c5_redeclaration
    [.memory [⟨"R", [], "0x0", ⟨"1", some "K"⟩⟩],
     .sections [.sec ".a" (some ⟨none, "R"⟩)]]
    [.sections [.sec ".b" (some ⟨none, "R"⟩)]]
    [⟨"R", [], "0x0", ⟨"2", some "K"⟩⟩]
    "R" ⟨"R", [], "0x0", ⟨"2", some "K"⟩⟩ 2 [("R", ⟨2048, [".b"]⟩)]
    (by rfl) (by rfl) (by rfl) (by rfl)

/-- Claim C6, counterexample: the document with `LENGTH = 64Q` is not a
numeric-literal failure at all — it already fails to parse (the grammar
matches `64` as the amount, finds no scale in `Q`, and then cannot finish
the MEMORY block), so no `InvalidNumericLiteralError`-style `ValueError`
is ever reached; indeed the code defines no such exception. -/
theorem c6_counterexample : parseFile docC6 = none := by rfl

/-- Claim C6, amended: a document with the malformed literal `LENGTH =
64Q` fails fatally with a parse (syntax) error, the `MalformedScriptError`
failure mode, not with a numeric-literal error. -/
theorem c6_amended : process docC6 = .error .syntaxError := by rfl

/-- Claim C7, counterexample: for the simple placement `.data : { x; } >
RAM` the name stored in `RAM.sections` is `.data` — with its leading dot
— so the claimed entry `"data"` does not appear in the list. -/
theorem c7_counterexample :
    process docC7s = .ok [("RAM", ⟨1024, [".data"]⟩)] ∧
      List.contains [".data"] ("data") = false := by
  exact ⟨by rfl, by rfl⟩

/-- Claim C7, amended: each simple stored-only placement appends exactly
one occurrence of the section's (dot-prefixed) name at the end of the
stored region's list, so placements appear exactly once each and in
document order; concretely `.data` then `.bss` placed into RAM give
`RAM.sections = [".data", ".bss"]`. -/
theorem c7_amended :
    (∀ (t : Table) (n nm : String) (r : Region), dictGet t n = some r →
      stepSection t (.sec nm (some ⟨none, n⟩)) =
        .ok (dictSet t n ⟨r.size, r.sections ++ [nm]⟩)) ∧
    process docC7 = .ok [("RAM", ⟨1024, [".data", ".bss"]⟩)] := by
  refine ⟨?_, by rfl⟩
  intro t n nm r h
  simp only [stepSection, h]

/-- Witness for the amended claim C7. -/
theorem c7_amended_witness :
    dictGet [("RAM", ⟨1024, []⟩)] ("RAM") = some ⟨1024, []⟩ ∧
      stepSection [("RAM", ⟨1024, []⟩)] (.sec ".data" (some ⟨none, "RAM"⟩)) =
        .ok [("RAM", ⟨1024, [".data"]⟩)] := by
  refine ⟨by rfl, ?_⟩
  exact c7_amended.1 [("RAM", ⟨1024, []⟩)] "RAM" ".data" ⟨1024, []⟩ (by rfl)

/-- Claim C8: inserting or removing a stanza of a non-semantic kind
(comment, entry, top-level assignment, output format, output arch)
anywhere in the stanza list leaves the reduction unchanged, as does a
`PROVIDE` entry inside a SECTIONS stanza; and the concrete document
containing all those stanza kinds parses and produces exactly the region
table of the document without them. -/
theorem c8_skippable :
    (∀ (t : Table) (pre post : List Stanza) (s : Stanza),
      skippable s = true →
      reduceStanzas t (pre ++ s :: post) = reduceStanzas t (pre ++ post)) ∧
    (∀ (t : Table) (pre post : List SectionNode),
      stepSecs t (pre ++ .provide :: post) = stepSecs t (pre ++ post)) ∧
    process docC8y = .ok [("RAM", ⟨1024, [".data"]⟩)] ∧
    process docC8y = process docC8n := by
  refine ⟨?_, ?_, by rfl, by rfl⟩
  · intro t pre post s hsk
    rw [reduceStanzas_append, reduceStanzas_append]
    cases reduceStanzas t pre with
    | error e => rfl
    | ok t1 =>
      simp only [reduceStanzas, stepStanza_skippable t1 s hsk]
  · intro t pre post
    rw [stepSecs_append, stepSecs_append]
    cases stepSecs t pre with
    | error e => rfl
    | ok t1 =>
      simp only [stepSecs, stepSection]

/-- Witness for claim C8: a comment stanza inserted into the empty
document changes nothing. -/
theorem c8_skippable_witness :
    skippable .comment = true ∧
      reduceStanzas [] ([] ++ .comment :: []) = reduceStanzas [] ([] ++ []) := by
  exact ⟨by rfl, c8_skippable.1 [] [] [] .comment (by rfl)⟩

/-- Claim C9, counterexample: the claim extends to ORIGIN, but a bare
decimal ORIGIN amount is not grammar-valid at all — `origin=Hex` demands
a `0x`/`0X` prefix — so `ORIGIN = 0123` makes the document unparseable
instead of producing a numeric-conversion failure. -/
theorem c9_counterexample : parseFile docC9o = none := by rfl

/-- Claim C9, amended (LENGTH only): a bare decimal digit run with a
leading zero and some nonzero digit is accepted by the grammar's
`HexOrNum` (which matches any digit run), but base auto-detection rejects
it, so processing fails with the conversion error naming the literal and
no region table is produced; concretely `LENGTH = 0123` parses and fails
with the `ValueError` on `0123`. -/
theorem c9_amended :
    (∀ ds : List Char, ds.all isDigitChar = true → ds.head? = some '0' →
      (∃ c ∈ ds, c ≠ '0') → intBase0 (String.mk ds) = none) ∧
    (∀ ds rest : Input, ds.all isDigitChar = true → ds.head? = some '0' →
      (∃ c ∈ ds, c ≠ '0') → headNotP isDigitChar rest →
      parseHexOrNum (ds ++ rest) = some (String.mk ds, rest)) ∧
    (∀ (name origin : String) (attrs : List String) (scale : Option String)
      (more : List Stanza) (ds : List Char),
      ds.all isDigitChar = true → ds.head? = some '0' →
      (∃ c ∈ ds, c ≠ '0') →
      reduceDoc (.memory [⟨name, attrs, origin, ⟨String.mk ds, scale⟩⟩] :: more) =
        .error (.valueError (String.mk ds))) ∧
    process docC9 = .error (.valueError ("0123")) := by
  refine ⟨?_, ?_, ?_, by rfl⟩
  · intro ds h1 h2 h3
    exact intBase0_leading_zero ds h1 h2 h3
  · intro ds rest h1 h2 h3 h4
    exact parseHexOrNum_leading_zero_run ds rest h1 h2 h3 h4
  · intro name origin attrs scale more ds h1 h2 h3
    exact reduceDoc_bad_length name origin attrs scale more _
      (intBase0_leading_zero ds h1 h2 h3)

/-- Witness for the amended claim C9 at the literal `0123`. -/
theorem c9_amended_witness :
    (['0', '1', '2', '3'].all isDigitChar = true) ∧
      (['0', '1', '2', '3'].head? = some '0') ∧
      (∃ c ∈ ['0', '1', '2', '3'], c ≠ '0') ∧
      intBase0 (String.mk ['0', '1', '2', '3']) = none := by
  refine ⟨by decide, by rfl, ⟨'1', by decide⟩, ?_⟩
  exact c9_amended.1 ['0', '1', '2', '3'] (by decide) (by rfl)
    ⟨'1', by decide⟩

/-- Claim C10: a section definition with only whitespace between its
braces is rejected — the `Definition+` of the `Section` rule requires at
least one definition and a definition must not begin with a closing
brace — for any dot-led section name and any whitespace; and the
concrete document containing `.text : { } > RAM` fails to parse. -/
theorem c10_empty_body :
    (∀ (nmTail w1 w2 w3 rest : Input),
      (∀ c ∈ nmTail, isIdChar c = true) →
      (∀ c ∈ w1, isWsChar c = true) →
      (∀ c ∈ w2, isWsChar c = true) →
      (∀ c ∈ w3, isWsChar c = true) →
      parseSectionNode
        ('.' :: (nmTail ++ (w1 ++ (':' ::
          (w2 ++ ('\x7b' :: (w3 ++ ('\x7d' :: rest)))))))) = none) ∧
    parseFile docC10 = none := by
  exact ⟨parseSectionNode_empty_body, by rfl⟩

/-- Witness for claim C10 at the literal section text `.text : { } `. -/
theorem c10_empty_body_witness :
    (∀ c ∈ (['t', 'e', 'x', 't'] : Input), isIdChar c = true) ∧
      parseSectionNode
        ('.' :: ((['t', 'e', 'x', 't'] : Input) ++ ([' '] ++ (':' ::
          ([' '] ++ ('\x7b' :: ([' '] ++ ('\x7d' :: ([] : Input))))))))) =
        none := by
  refine ⟨by decide, ?_⟩
  exact c10_empty_body.1 ['t', 'e', 'x', 't'] [' '] [' '] [' '] []
    (by decide) (by decide) (by decide) (by decide)

end Prettysize
